import Mathlib

/-!
Shallow embedding of `src/relations.rs` (navitia_model relation layer).

`Idx<T>` is an opaque totally ordered integer handle; we model it as `Nat`.
`IdxSet<T> = BTreeSet<Idx<T>>` is modelled as a strictly sorted `List Nat`
(BTreeSet iterates in increasing key order, deduplicated).
`BTreeMap<Idx<T>, V>` is modelled as an association list `List (Nat × V)`
strictly sorted by key; lookup returns the first entry with the given key.
All constructors are translated operation by operation from the Rust source:
`insert` on sets and maps keeps the sorted-list shape, `collect` into a
`BTreeSet`/`BTreeMap` is a left fold of `insert` starting from empty.
-/

namespace NavitiaRelations

/-- Rust `Idx<T>`: an arena handle, an integer. -/
abbrev Idx := Nat

/-- Rust `IdxSet<T> = BTreeSet<Idx<T>>`: iterated as a strictly increasing list. -/
abbrev IdxSet := List Nat

/-- Rust `BTreeMap<Idx<T>, IdxSet<U>>` as a key-sorted association list. -/
abbrev IdxMap := List (Nat × IdxSet)

/-- The BTreeSet invariant: strictly increasing elements. -/
abbrev SortedSet (s : IdxSet) : Prop := s.Pairwise (· < ·)

/-- The BTreeMap invariant: strictly increasing keys. -/
abbrev KeysSorted (m : IdxMap) : Prop := (m.map Prod.fst).Pairwise (· < ·)

/-- Rust `BTreeSet::insert`: ordered insert, no duplicate. -/
def setInsert (x : Nat) : IdxSet → IdxSet
  | [] => [x]
  | y :: ys =>
    if x < y then x :: y :: ys
    else if x = y then y :: ys
    else y :: setInsert x ys

/-- Rust `iterator.collect::<BTreeSet<_>>()`: insert every element in iteration
order into an initially empty set. -/
def collectSet (l : List Nat) : IdxSet :=
  l.foldl (fun s x => setInsert x s) []

/-- Rust `BTreeMap::get` on a `Idx → IdxSet` map: first entry with the key. -/
def mapGet (m : IdxMap) (k : Nat) : Option IdxSet :=
  match m with
  | [] => none
  | (k', v) :: rest => if k = k' then some v else mapGet rest k

/-- Value `v` is associated to key `k` in map `m` (membership through `get`). -/
def memMap (m : IdxMap) (k v : Nat) : Prop :=
  ∃ s, mapGet m k = some s ∧ v ∈ s

/-- Rust `map.entry(k).or_insert_with(IdxSet::default).insert(x)`: add `x` to the
set stored at `k`, creating a singleton entry if `k` is absent. -/
def mapEntryInsert (k x : Nat) : IdxMap → IdxMap
  | [] => [(k, [x])]
  | (k', s) :: rest =>
    if k < k' then (k, [x]) :: (k', s) :: rest
    else if k = k' then (k', setInsert x s) :: rest
    else (k', s) :: mapEntryInsert k x rest

/-- Rust `BTreeMap::insert(k, v)`: insert or replace the whole entry at `k`. -/
def mapInsert (k : Nat) (v : IdxSet) : IdxMap → IdxMap
  | [] => [(k, v)]
  | (k', v') :: rest =>
    if k < k' then (k, v) :: (k', v') :: rest
    else if k = k' then (k, v) :: rest
    else (k', v') :: mapInsert k v rest

/-- Rust `iterator.collect::<BTreeMap<_, _>>()` over `(key, set)` pairs. -/
def collectMap (l : List (Nat × IdxSet)) : IdxMap :=
  l.foldl (fun m p => mapInsert p.1 p.2 m) []

/-- Rust `BTreeMap::get` on a `Idx<U> → Idx<T>` map (the `many_to_one` map). -/
def lookupN (m : List (Nat × Nat)) (k : Nat) : Option Nat :=
  match m with
  | [] => none
  | (k', v) :: rest => if k = k' then some v else lookupN rest k

/-- Rust `BTreeMap::insert(k, v)` on a `Idx<U> → Idx<T>` map. -/
def m2oInsert (k v : Nat) : List (Nat × Nat) → List (Nat × Nat)
  | [] => [(k, v)]
  | (k', v') :: rest =>
    if k < k' then (k, v) :: (k', v') :: rest
    else if k = k' then (k, v) :: rest
    else (k', v') :: m2oInsert k v rest

/-- Source `fn get_corresponding(map, from)`: `from.iter().filter_map(|i| map.get(i))
.flat_map(|s| s.iter().cloned()).collect()` — union, over input handles
present as keys, of their mapped sets. -/
def get_corresponding (map : IdxMap) (f : IdxSet) : IdxSet :=
  collectSet ((f.filterMap (fun i => mapGet map i)).flatten)

/-- Set union as in the testable property: insert every element of `b`
into `a` (BTreeSet `extend`/`union` collect). -/
def setUnion (a b : IdxSet) : IdxSet :=
  b.foldl (fun s x => setInsert x s) a

/-- The error messages of the source carry strings; containment of `sub` in
`s` is list-of-character infix decomposition. -/
def strContains (s sub : String) : Prop :=
  ∃ pre post : List Char, s.data = pre ++ sub.data ++ post

/-- The `one` collection as the relation layer sees it: `get_idx`, an
`id → handle` lookup over the finalized `CollectionWithId`. -/
def getIdx (one : List (String × Nat)) (i : String) : Option Nat :=
  match one with
  | [] => none
  | p :: rest => if p.1 = i then some p.2 else getIdx rest i

/-- Source `struct OneToMany<T, U>`. -/
structure OneToMany where
  one_to_many : IdxMap
  many_to_one : List (Nat × Nat)
  deriving DecidableEq

/-- Loop body of `OneToMany::new_impl`: iterate the `many` collection as
`(many_idx, one_id)` pairs in handle order; resolve each foreign key via
`one.get_idx`, failing with `format_err!("id={:?} not found", one_id)`,
and otherwise extend both maps. -/
def new_impl_go (one : List (String × Nat)) :
    List (Nat × String) → IdxMap → List (Nat × Nat) → Except String OneToMany
  | [], o2m, m2o => .ok ⟨o2m, m2o⟩
  | (many_idx, one_id) :: rest, o2m, m2o =>
    match getIdx one one_id with
    | none => .error ("id=\"" ++ (one_id ++ "\" not found"))
    | some one_idx =>
        new_impl_go one rest (mapEntryInsert one_idx many_idx o2m)
          (m2oInsert many_idx one_idx m2o)

/-- Source `OneToMany::new_impl(one, many)`. -/
def new_impl (one : List (String × Nat)) (many : List (Nat × String)) :
    Except String OneToMany :=
  new_impl_go one many [] []

/-- Source `OneToMany::new(one, many, rel_name)`: `new_impl` with the context
`format!("Error indexing {}", rel_name)` prepended to the error chain. -/
def OneToMany.new (one : List (String × Nat)) (many : List (Nat × String))
    (rel_name : String) : Except String OneToMany :=
  match new_impl one many with
  | .error e => .error ("Error indexing " ++ (rel_name ++ (": " ++ e)))
  | .ok v => .ok v

/-- Source `OneToMany::get_from`: `one_to_many.keys().cloned().collect()`. -/
def OneToMany.get_from (r : OneToMany) : IdxSet :=
  collectSet (r.one_to_many.map Prod.fst)

/-- Source `OneToMany::get_corresponding_forward`. -/
def OneToMany.get_corresponding_forward (r : OneToMany) (f : IdxSet) : IdxSet :=
  get_corresponding r.one_to_many f

/-- Source `OneToMany::get_corresponding_backward`: look up each input handle's
single parent, ignoring handles absent from the map, and collect. -/
def OneToMany.get_corresponding_backward (r : OneToMany) (f : IdxSet) : IdxSet :=
  collectSet (f.filterMap (fun i => lookupN r.many_to_one i))

/-- Source `struct ManyToMany<T, U>`. -/
structure ManyToMany where
  forward : IdxMap
  backward : IdxMap
  deriving DecidableEq

/-- Source `ManyToMany::from_forward`: keep `forward`, build `backward` by
enumerating every `(from_idx, to_idx)` pair of `forward` and inserting
`from_idx` into `backward`'s entry at `to_idx`. -/
def ManyToMany.from_forward (f : IdxMap) : ManyToMany :=
  { forward := f
    backward :=
      ((f.map (fun p => p.2.map (fun to_idx => (p.1, to_idx)))).flatten).foldl
        (fun b q => mapEntryInsert q.2 q.1 b) [] }

/-- Source `ManyToMany::get_from`: `forward.keys().cloned().collect()`. -/
def ManyToMany.get_from (m : ManyToMany) : IdxSet :=
  collectSet (m.forward.map Prod.fst)

/-- Source `ManyToMany::get_corresponding_forward`. -/
def ManyToMany.get_corresponding_forward (m : ManyToMany) (f : IdxSet) : IdxSet :=
  get_corresponding m.forward f

/-- Source `ManyToMany::get_corresponding_backward`. -/
def ManyToMany.get_corresponding_backward (m : ManyToMany) (f : IdxSet) : IdxSet :=
  get_corresponding m.backward f

/-- The `Relation` trait object seen by the composition constructors:
`get_from`, `get_corresponding_forward`, `get_corresponding_backward`. -/
structure Relation where
  get_from : IdxSet
  get_corresponding_forward : IdxSet → IdxSet
  get_corresponding_backward : IdxSet → IdxSet

/-- The `Relation` impl of `ManyToMany`, packaged as a trait object. -/
def ManyToMany.toRelation (m : ManyToMany) : Relation :=
  { get_from := m.get_from
    get_corresponding_forward := fun s => m.get_corresponding_forward s
    get_corresponding_backward := fun s => m.get_corresponding_backward s }

/-- The `Relation` impl of `OneToMany`, packaged as a trait object. -/
def OneToMany.toRelation (r : OneToMany) : Relation :=
  { get_from := r.get_from
    get_corresponding_forward := fun s => r.get_corresponding_forward s
    get_corresponding_backward := fun s => r.get_corresponding_backward s }

/-- Source `ManyToMany::from_relations_chain(r1, r2)`: for each `idx` of
`r1.get_from()`, pair it with `r2.get_corresponding_forward(
r1.get_corresponding_forward({idx}))`, collect into a map and call
`from_forward`. -/
def ManyToMany.from_relations_chain (r1 r2 : Relation) : ManyToMany :=
  ManyToMany.from_forward
    (collectMap (r1.get_from.map (fun idx =>
      (idx, r2.get_corresponding_forward
        (r1.get_corresponding_forward [idx])))))

/-- Source `ManyToMany::from_relations_sink(r1, r2)`: for each `idx` of
`r1.get_from()`, pair it with `r2.get_corresponding_backward(
r1.get_corresponding_forward({idx}))`, collect and call `from_forward`. -/
def ManyToMany.from_relations_sink (r1 r2 : Relation) : ManyToMany :=
  ManyToMany.from_forward
    (collectMap (r1.get_from.map (fun idx =>
      (idx, r2.get_corresponding_backward
        (r1.get_corresponding_forward [idx])))))

/-! ### Basic lemmas about the BTreeSet model -/

theorem mem_setInsert (x y : Nat) (l : IdxSet) :
    x ∈ setInsert y l ↔ x = y ∨ x ∈ l := by
  induction l with
  | nil => simp [setInsert]
  | cons z zs ih =>
      by_cases h1 : y < z
      · simp [setInsert, h1]
      · by_cases h2 : y = z
        · subst h2
          have heq : setInsert y (y :: zs) = y :: zs := by simp [setInsert]
          rw [heq]
          simp only [List.mem_cons]
          tauto
        · simp only [setInsert, if_neg h1, if_neg h2, List.mem_cons, ih]
          tauto

theorem sortedSet_setInsert (y : Nat) (l : IdxSet) (h : SortedSet l) :
    SortedSet (setInsert y l) := by
  induction l with
  | nil => simp [setInsert, SortedSet]
  | cons z zs ih =>
      rw [SortedSet, List.pairwise_cons] at h
      obtain ⟨hz, hzs⟩ := h
      by_cases h1 : y < z
      · rw [SortedSet, setInsert, if_pos h1, List.pairwise_cons]
        refine ⟨?_, ?_⟩
        · intro w hw
          rcases List.mem_cons.1 hw with rfl | hw
          · exact h1
          · exact lt_trans h1 (hz w hw)
        · rw [List.pairwise_cons]; exact ⟨hz, hzs⟩
      · by_cases h2 : y = z
        · rw [SortedSet, setInsert, if_neg h1, if_pos h2, List.pairwise_cons]
          exact ⟨hz, hzs⟩
        · have hzy : z < y := by omega
          rw [SortedSet, setInsert, if_neg h1, if_neg h2, List.pairwise_cons]
          refine ⟨?_, ih hzs⟩
          intro w hw
          rcases (mem_setInsert w y zs).1 hw with rfl | hw
          · exact hzy
          · exact hz w hw

theorem setInsert_ne_nil (y : Nat) (l : IdxSet) : setInsert y l ≠ [] := by
  cases l with
  | nil => simp [setInsert]
  | cons z zs =>
      by_cases h1 : y < z
      · simp [setInsert, h1]
      · by_cases h2 : y = z <;> simp [setInsert, h1, h2]

theorem mem_foldl_setInsert (l : List Nat) :
    ∀ (s0 : IdxSet) (x : Nat),
      x ∈ l.foldl (fun s y => setInsert y s) s0 ↔ x ∈ s0 ∨ x ∈ l := by
  induction l with
  | nil => simp
  | cons z zs ih =>
      intro s0 x
      rw [List.foldl_cons, ih, mem_setInsert]
      simp only [List.mem_cons]
      tauto

theorem sorted_foldl_setInsert (l : List Nat) :
    ∀ s0 : IdxSet, SortedSet s0 →
      SortedSet (l.foldl (fun s y => setInsert y s) s0) := by
  induction l with
  | nil => intro s0 h; exact h
  | cons z zs ih =>
      intro s0 h
      exact ih _ (sortedSet_setInsert z s0 h)

theorem mem_collectSet (l : List Nat) (x : Nat) :
    x ∈ collectSet l ↔ x ∈ l := by
  rw [collectSet, mem_foldl_setInsert]; simp

theorem sortedSet_collectSet (l : List Nat) : SortedSet (collectSet l) :=
  sorted_foldl_setInsert l [] (by simp [SortedSet])

theorem mem_setUnion (a b : IdxSet) (x : Nat) :
    x ∈ setUnion a b ↔ x ∈ a ∨ x ∈ b := by
  rw [setUnion, mem_foldl_setInsert]

theorem sortedSet_setUnion (a b : IdxSet) (h : SortedSet a) :
    SortedSet (setUnion a b) :=
  sorted_foldl_setInsert b a h

theorem idxSet_ext (a b : IdxSet) (ha : SortedSet a) (hb : SortedSet b)
    (h : ∀ x, x ∈ a ↔ x ∈ b) : a = b :=
  List.eq_of_perm_of_sorted
    ((List.perm_ext_iff_of_nodup ha.nodup hb.nodup).2 h) ha hb

/-! ### Basic lemmas about the BTreeMap model -/

theorem mapGet_eq_none_iff (m : IdxMap) (k : Nat) :
    mapGet m k = none ↔ k ∉ m.map Prod.fst := by
  induction m with
  | nil => simp [mapGet]
  | cons p rest ih =>
      obtain ⟨k', v⟩ := p
      by_cases h : k = k' <;> simp [mapGet, h, ih]

theorem mapGet_isSome_iff (m : IdxMap) (k : Nat) :
    (∃ s, mapGet m k = some s) ↔ k ∈ m.map Prod.fst := by
  induction m with
  | nil => simp [mapGet]
  | cons p rest ih =>
      obtain ⟨k', v⟩ := p
      by_cases h : k = k' <;> simp [mapGet, h, ih]

theorem keys_mapEntryInsert (k x : Nat) (m : IdxMap) :
    (mapEntryInsert k x m).map Prod.fst = setInsert k (m.map Prod.fst) := by
  induction m with
  | nil => rfl
  | cons p rest ih =>
      obtain ⟨k', s⟩ := p
      by_cases h1 : k < k'
      · simp [mapEntryInsert, setInsert, h1]
      · by_cases h2 : k = k' <;> simp [mapEntryInsert, setInsert, h1, h2, ih]

theorem keysSorted_mapEntryInsert (k x : Nat) (m : IdxMap) (h : KeysSorted m) :
    KeysSorted (mapEntryInsert k x m) := by
  rw [KeysSorted, keys_mapEntryInsert]
  exact sortedSet_setInsert k _ h

theorem mapGet_mapEntryInsert (k x j : Nat) (m : IdxMap) (h : KeysSorted m) :
    mapGet (mapEntryInsert k x m) j =
      if j = k then some (setInsert x ((mapGet m k).getD [])) else mapGet m j := by
  induction m with
  | nil => by_cases hj : j = k <;> simp [mapEntryInsert, mapGet, hj, setInsert]
  | cons p rest ih =>
      obtain ⟨k', s⟩ := p
      rw [KeysSorted, List.map_cons, List.pairwise_cons] at h
      by_cases h1 : k < k'
      · have hkk' : k ≠ k' := by omega
        have hrest : mapGet rest k = none := by
          rw [mapGet_eq_none_iff]
          intro hk
          exact absurd (h.1 k hk) (by omega)
        by_cases hj : j = k
        · subst hj
          simp [mapEntryInsert, mapGet, h1, hkk', hrest, setInsert]
        · simp [mapEntryInsert, mapGet, h1, hj]
      · by_cases h2 : k = k'
        · subst h2
          by_cases hj : j = k <;>
            simp [mapEntryInsert, mapGet, h1, hj]
        · have hk'k : k' < k := by omega
          by_cases hj : j = k'
          · have hjk : ¬j = k := by omega
            rw [if_neg hjk]
            simp only [mapEntryInsert, if_neg h1, if_neg h2]
            simp only [mapGet, if_pos hj]
          · simp only [mapEntryInsert, if_neg h1, if_neg h2, mapGet, if_neg hj]
            rw [ih h.2]

theorem memMap_mapEntryInsert (k x j y : Nat) (m : IdxMap) (h : KeysSorted m) :
    memMap (mapEntryInsert k x m) j y ↔ (j = k ∧ y = x) ∨ memMap m j y := by
  rw [memMap, memMap, mapGet_mapEntryInsert k x j m h]
  by_cases hj : j = k
  · subst hj
    rw [if_pos rfl]
    constructor
    · rintro ⟨s, hs, hy⟩
      injection hs with hs
      subst hs
      rcases (mem_setInsert y x _).1 hy with rfl | hy
      · exact Or.inl ⟨rfl, rfl⟩
      · cases hg : mapGet m j with
        | none => rw [hg] at hy; simp at hy
        | some t =>
            rw [hg] at hy
            exact Or.inr ⟨t, rfl, hy⟩
    · rintro (⟨-, rfl⟩ | ⟨s, hs, hy⟩)
      · exact ⟨_, rfl, (mem_setInsert y y _).2 (Or.inl rfl)⟩
      · rw [hs]
        exact ⟨_, rfl, (mem_setInsert y x _).2 (Or.inr hy)⟩
  · rw [if_neg hj]
    constructor
    · intro hm
      exact Or.inr hm
    · rintro (⟨hjk, -⟩ | hm)
      · exact absurd hjk hj
      · exact hm

theorem keys_mapInsert (k : Nat) (v : IdxSet) (m : IdxMap) :
    (mapInsert k v m).map Prod.fst = setInsert k (m.map Prod.fst) := by
  induction m with
  | nil => rfl
  | cons p rest ih =>
      obtain ⟨k', v'⟩ := p
      by_cases h1 : k < k'
      · simp [mapInsert, setInsert, h1]
      · by_cases h2 : k = k' <;> simp [mapInsert, setInsert, h1, h2, ih]

theorem keysSorted_mapInsert (k : Nat) (v : IdxSet) (m : IdxMap)
    (h : KeysSorted m) : KeysSorted (mapInsert k v m) := by
  rw [KeysSorted, keys_mapInsert]
  exact sortedSet_setInsert k _ h

theorem mapGet_mapInsert (k j : Nat) (v : IdxSet) (m : IdxMap) :
    mapGet (mapInsert k v m) j = if j = k then some v else mapGet m j := by
  induction m with
  | nil => by_cases hj : j = k <;> simp [mapInsert, mapGet, hj]
  | cons p rest ih =>
      obtain ⟨k', v'⟩ := p
      by_cases h1 : k < k'
      · by_cases hj : j = k <;> simp [mapInsert, mapGet, h1, hj]
      · by_cases h2 : k = k'
        · subst h2
          by_cases hj : j = k <;> simp [mapInsert, mapGet, h1, hj]
        · by_cases hj : j = k'
          · subst hj
            have hjk : j ≠ k := fun hh => h2 hh.symm
            simp [mapInsert, mapGet, h1, h2, hjk]
          · simp only [mapInsert, if_neg h1, if_neg h2, mapGet, if_neg hj]
            exact ih

theorem lookupN_m2oInsert (k v j : Nat) (m : List (Nat × Nat)) :
    lookupN (m2oInsert k v m) j = if j = k then some v else lookupN m j := by
  induction m with
  | nil => by_cases hj : j = k <;> simp [m2oInsert, lookupN, hj]
  | cons p rest ih =>
      obtain ⟨k', v'⟩ := p
      by_cases h1 : k < k'
      · by_cases hj : j = k <;> simp [m2oInsert, lookupN, h1, hj]
      · by_cases h2 : k = k'
        · subst h2
          by_cases hj : j = k <;> simp [m2oInsert, lookupN, h1, hj]
        · by_cases hj : j = k'
          · subst hj
            have hjk : j ≠ k := fun hh => h2 hh.symm
            simp [m2oInsert, lookupN, h1, h2, hjk]
          · simp only [m2oInsert, if_neg h1, if_neg h2, lookupN, if_neg hj]
            exact ih

theorem mem_of_mapGet (m : IdxMap) (k : Nat) (s : IdxSet)
    (h : mapGet m k = some s) : (k, s) ∈ m := by
  induction m with
  | nil => simp [mapGet] at h
  | cons p rest ih =>
      obtain ⟨k', v⟩ := p
      rw [mapGet] at h
      by_cases hk : k = k'
      · rw [if_pos hk] at h
        injection h with h
        subst hk
        subst h
        exact List.mem_cons_self _ _
      · rw [if_neg hk] at h
        exact List.mem_cons_of_mem _ (ih h)

theorem mapGet_of_mem (m : IdxMap) (k : Nat) (s : IdxSet)
    (hm : KeysSorted m) (h : (k, s) ∈ m) : mapGet m k = some s := by
  induction m with
  | nil => simp at h
  | cons p rest ih =>
      obtain ⟨k', v⟩ := p
      rw [KeysSorted, List.map_cons, List.pairwise_cons] at hm
      rcases List.mem_cons.1 h with heq | hmem
      · injection heq with h1 h2
        subst h1
        subst h2
        simp [mapGet]
      · have hk : k' < k := hm.1 k (List.mem_map_of_mem Prod.fst hmem)
        rw [mapGet, if_neg (by omega)]
        exact ih hm.2 hmem

/-! ### The generic projection helper -/

theorem mem_get_corresponding (M : IdxMap) (S : IdxSet) (x : Nat) :
    x ∈ get_corresponding M S ↔ ∃ k ∈ S, memMap M k x := by
  rw [get_corresponding, mem_collectSet, List.mem_flatten]
  constructor
  · rintro ⟨s, hs, hx⟩
    rcases List.mem_filterMap.1 hs with ⟨k, hk, hks⟩
    exact ⟨k, hk, s, hks, hx⟩
  · rintro ⟨k, hk, s, hks, hx⟩
    exact ⟨s, List.mem_filterMap.2 ⟨k, hk, hks⟩, hx⟩

theorem sortedSet_get_corresponding (M : IdxMap) (S : IdxSet) :
    SortedSet (get_corresponding M S) :=
  sortedSet_collectSet _

/-! ### from_forward: backward is the exact inverse of forward -/

theorem keysSorted_foldl_mapEntryInsert (pairs : List (Nat × Nat)) :
    ∀ b0 : IdxMap, KeysSorted b0 →
      KeysSorted (pairs.foldl (fun b q => mapEntryInsert q.2 q.1 b) b0) := by
  induction pairs with
  | nil => intro b0 h; exact h
  | cons q rest ih =>
      intro b0 h
      exact ih _ (keysSorted_mapEntryInsert _ _ _ h)

theorem memMap_foldl_mapEntryInsert (pairs : List (Nat × Nat)) :
    ∀ b0 : IdxMap, KeysSorted b0 → ∀ j x : Nat,
      (memMap (pairs.foldl (fun b q => mapEntryInsert q.2 q.1 b) b0) j x ↔
        memMap b0 j x ∨ (x, j) ∈ pairs) := by
  induction pairs with
  | nil => intro b0 h j x; simp
  | cons q rest ih =>
      intro b0 h j x
      obtain ⟨a, b⟩ := q
      rw [List.foldl_cons,
        ih (mapEntryInsert b a b0) (keysSorted_mapEntryInsert b a b0 h) j x,
        memMap_mapEntryInsert b a j x b0 h]
      simp only [List.mem_cons, Prod.mk.injEq]
      tauto

theorem memMap_iff_mem_pairs (f : IdxMap) (hf : KeysSorted f) (u v : Nat) :
    (u, v) ∈ (f.map (fun p => p.2.map (fun to_idx => (p.1, to_idx)))).flatten ↔
      memMap f u v := by
  rw [List.mem_flatten]
  constructor
  · rintro ⟨l, hl, huv⟩
    rcases List.mem_map.1 hl with ⟨⟨pa, pb⟩, hp, rfl⟩
    rcases List.mem_map.1 huv with ⟨t, ht, hpt⟩
    injection hpt with h1 h2
    subst h1
    subst h2
    exact ⟨pb, mapGet_of_mem f pa pb hf hp, ht⟩
  · rintro ⟨s, hs, hv⟩
    exact ⟨s.map (fun to_idx => (u, to_idx)),
      List.mem_map.2 ⟨(u, s), mem_of_mapGet f u s hs, rfl⟩,
      List.mem_map.2 ⟨v, hv, rfl⟩⟩

theorem from_forward_forward (f : IdxMap) :
    (ManyToMany.from_forward f).forward = f := rfl

theorem from_forward_backward_memMap (f : IdxMap) (hf : KeysSorted f)
    (u v : Nat) :
    memMap (ManyToMany.from_forward f).backward v u ↔ memMap f u v := by
  have h0 : KeysSorted ([] : IdxMap) := by simp [KeysSorted]
  show memMap
      (((f.map (fun p => p.2.map (fun to_idx => (p.1, to_idx)))).flatten).foldl
        (fun b q => mapEntryInsert q.2 q.1 b) []) v u ↔ memMap f u v
  rw [memMap_foldl_mapEntryInsert _ [] h0 v u, memMap_iff_mem_pairs f hf u v]
  simp [memMap, mapGet]

/-! ### collectMap: collecting `(key, set)` pairs into a BTreeMap -/

theorem keysSorted_foldl_mapInsert (l : List (Nat × IdxSet)) :
    ∀ m0 : IdxMap, KeysSorted m0 →
      KeysSorted (l.foldl (fun m p => mapInsert p.1 p.2 m) m0) := by
  induction l with
  | nil => intro m0 h; exact h
  | cons p rest ih =>
      intro m0 h
      exact ih _ (keysSorted_mapInsert _ _ _ h)

theorem keysSorted_collectMap (l : List (Nat × IdxSet)) :
    KeysSorted (collectMap l) :=
  keysSorted_foldl_mapInsert l [] (by simp [KeysSorted])

theorem mapGet_foldl_mapInsert_of_none (l : List (Nat × IdxSet)) :
    ∀ (m0 : IdxMap) (j : Nat), mapGet l j = none →
      mapGet (l.foldl (fun m p => mapInsert p.1 p.2 m) m0) j = mapGet m0 j := by
  induction l with
  | nil => intro m0 j _; rfl
  | cons p rest ih =>
      intro m0 j h
      obtain ⟨a, b⟩ := p
      rw [mapGet] at h
      by_cases hj : j = a
      · rw [if_pos hj] at h
        exact absurd h (by simp)
      · rw [if_neg hj] at h
        rw [List.foldl_cons, ih _ j h, mapGet_mapInsert a j b m0, if_neg hj]

theorem mapGet_foldl_mapInsert_of_some (l : List (Nat × IdxSet)) :
    ∀ (m0 : IdxMap) (j : Nat) (v : IdxSet), (l.map Prod.fst).Nodup →
      mapGet l j = some v →
      mapGet (l.foldl (fun m p => mapInsert p.1 p.2 m) m0) j = some v := by
  induction l with
  | nil => intro m0 j v _ h; exact absurd h (by simp [mapGet])
  | cons p rest ih =>
      intro m0 j v hnd h
      obtain ⟨a, b⟩ := p
      rw [List.map_cons, List.nodup_cons] at hnd
      rw [mapGet] at h
      by_cases hj : j = a
      · rw [if_pos hj] at h
        injection h with h
        subst h
        have hrest : mapGet rest j = none := by
          rw [mapGet_eq_none_iff]
          rw [hj]
          exact hnd.1
        rw [List.foldl_cons, mapGet_foldl_mapInsert_of_none rest _ j hrest,
          mapGet_mapInsert a j b m0, if_pos hj]
      · rw [if_neg hj] at h
        rw [List.foldl_cons]
        exact ih _ j v hnd.2 h

theorem mapGet_map_self (xs : List Nat) (F : Nat → IdxSet) (j : Nat) :
    mapGet (xs.map (fun i => (i, F i))) j =
      if j ∈ xs then some (F j) else none := by
  induction xs with
  | nil => simp [mapGet]
  | cons a rest ih =>
      by_cases hj : j = a
      · subst hj
        simp [mapGet]
      · simp [mapGet, hj, ih]

theorem mapGet_collectMap_map_self (xs : List Nat) (F : Nat → IdxSet)
    (hxs : SortedSet xs) (j : Nat) (hj : j ∈ xs) :
    mapGet (collectMap (xs.map (fun i => (i, F i)))) j = some (F j) := by
  have hkeys : ((xs.map (fun i => (i, F i))).map Prod.fst).Nodup := by
    rw [List.map_map]
    have : (Prod.fst ∘ fun i => (i, F i)) = id := rfl
    rw [this, List.map_id]
    exact hxs.nodup
  refine mapGet_foldl_mapInsert_of_some _ [] j (F j) hkeys ?_
  rw [mapGet_map_self xs F j, if_pos hj]

/-! ### OneToMany construction -/

theorem new_impl_go_error (one : List (String × Nat))
    (many : List (Nat × String))
    (h : ∃ p ∈ many, getIdx one p.2 = none) :
    ∃ i, (∃ p ∈ many, p.2 = i ∧ getIdx one i = none) ∧
      ∀ o2m m2o, new_impl_go one many o2m m2o =
        .error ("id=\"" ++ (i ++ "\" not found")) := by
  induction many with
  | nil => simp at h
  | cons q rest ih =>
      obtain ⟨mi, oid⟩ := q
      cases hg : getIdx one oid with
      | none =>
          refine ⟨oid, ⟨(mi, oid), List.mem_cons_self _ _, rfl, hg⟩, ?_⟩
          intro o2m m2o
          rw [new_impl_go, hg]
      | some oi =>
          have h' : ∃ p ∈ rest, getIdx one p.2 = none := by
            rcases h with ⟨p, hp, hpn⟩
            rcases List.mem_cons.1 hp with rfl | hp
            · have hpn' : getIdx one oid = none := hpn
              rw [hg] at hpn'
              exact absurd hpn' (by simp)
            · exact ⟨p, hp, hpn⟩
          rcases ih h' with ⟨i, ⟨p, hp, hpi⟩, hrun⟩
          refine ⟨i, ⟨p, List.mem_cons_of_mem _ hp, hpi⟩, ?_⟩
          intro o2m m2o
          rw [new_impl_go, hg]
          exact hrun _ _

theorem new_impl_go_ok (one : List (String × Nat))
    (many : List (Nat × String)) :
    (∀ p ∈ many, getIdx one p.2 ≠ none) →
    ∀ o2m m2o, ∃ r, new_impl_go one many o2m m2o = .ok r := by
  induction many with
  | nil => intro _ o2m m2o; exact ⟨⟨o2m, m2o⟩, rfl⟩
  | cons q rest ih =>
      intro h o2m m2o
      obtain ⟨mi, oid⟩ := q
      cases hg : getIdx one oid with
      | none => exact absurd hg (h (mi, oid) (List.mem_cons_self _ _))
      | some oi =>
          rcases ih (fun p hp => h p (List.mem_cons_of_mem _ hp))
            (mapEntryInsert oi mi o2m) (m2oInsert mi oi m2o) with ⟨r, hr⟩
          refine ⟨r, ?_⟩
          rw [new_impl_go, hg]
          exact hr

theorem new_impl_go_keys (one : List (String × Nat))
    (many : List (Nat × String)) :
    ∀ (o2m : IdxMap) (m2o : List (Nat × Nat)) (r : OneToMany),
      KeysSorted o2m →
      new_impl_go one many o2m m2o = .ok r →
      ∀ k, (∃ s, mapGet r.one_to_many k = some s) ↔
        (∃ s, mapGet o2m k = some s) ∨ ∃ p ∈ many, getIdx one p.2 = some k := by
  induction many with
  | nil =>
      intro o2m m2o r _ h k
      rw [new_impl_go] at h
      injection h with h
      subst h
      simp
  | cons q rest ih =>
      intro o2m m2o r hs h k
      obtain ⟨mi, oid⟩ := q
      rw [new_impl_go] at h
      cases hg : getIdx one oid with
      | none =>
          rw [hg] at h
          exact absurd h (by simp)
      | some oi =>
          rw [hg] at h
          rw [ih _ _ r (keysSorted_mapEntryInsert _ _ _ hs) h k]
          have hstep : (∃ s, mapGet (mapEntryInsert oi mi o2m) k = some s) ↔
              (k = oi ∨ ∃ s, mapGet o2m k = some s) := by
            rw [mapGet_mapEntryInsert oi mi k o2m hs]
            by_cases hk : k = oi <;> simp [hk]
          rw [hstep]
          have hcons : (∃ p ∈ (mi, oid) :: rest, getIdx one p.2 = some k) ↔
              (k = oi ∨ ∃ p ∈ rest, getIdx one p.2 = some k) := by
            simp only [List.mem_cons]
            constructor
            · rintro ⟨p, (rfl | hp), hpk⟩
              · have hpk' : getIdx one oid = some k := hpk
                rw [hg] at hpk'
                injection hpk' with hpk'
                exact Or.inl hpk'.symm
              · exact Or.inr ⟨p, hp, hpk⟩
            · rintro (rfl | ⟨p, hp, hpk⟩)
              · exact ⟨(mi, oid), Or.inl rfl, by rw [hg]⟩
              · exact ⟨p, Or.inr hp, hpk⟩
          rw [hcons]
          tauto

theorem new_impl_go_inv (one : List (String × Nat))
    (many : List (Nat × String)) :
    ∀ (o2m : IdxMap) (m2o : List (Nat × Nat)) (r : OneToMany),
      new_impl_go one many o2m m2o = .ok r →
      KeysSorted o2m →
      (many.map Prod.fst).Pairwise (· < ·) →
      (∀ p ∈ many, lookupN m2o p.1 = none) →
      (∀ o c, memMap o2m o c ↔ lookupN m2o c = some o) →
      (∀ k s, mapGet o2m k = some s → s ≠ []) →
      (KeysSorted r.one_to_many ∧
        (∀ o c, memMap r.one_to_many o c ↔ lookupN r.many_to_one c = some o) ∧
        (∀ k s, mapGet r.one_to_many k = some s → s ≠ [])) := by
  induction many with
  | nil =>
      intro o2m m2o r h hs _ _ hinv hne
      rw [new_impl_go] at h
      injection h with h
      subst h
      exact ⟨hs, hinv, hne⟩
  | cons q rest ih =>
      intro o2m m2o r h hs hp hfresh hinv hne
      obtain ⟨mi, oid⟩ := q
      rw [new_impl_go] at h
      cases hg : getIdx one oid with
      | none =>
          rw [hg] at h
          exact absurd h (by simp)
      | some oi =>
          rw [hg] at h
          rw [List.map_cons, List.pairwise_cons] at hp
          have hmi_none : lookupN m2o mi = none :=
            hfresh (mi, oid) (List.mem_cons_self _ _)
          refine ih _ _ r h (keysSorted_mapEntryInsert _ _ _ hs) hp.2 ?_ ?_ ?_
          · intro p hp'
            rw [lookupN_m2oInsert mi oi p.1 m2o]
            have hne' : ¬p.1 = mi := by
              have := hp.1 p.1 (List.mem_map_of_mem Prod.fst hp')
              omega
            rw [if_neg hne']
            exact hfresh p (List.mem_cons_of_mem _ hp')
          · intro o c
            rw [memMap_mapEntryInsert oi mi o c o2m hs,
              lookupN_m2oInsert mi oi c m2o]
            by_cases hc : c = mi
            · subst hc
              rw [if_pos rfl]
              constructor
              · rintro (⟨rfl, -⟩ | hm)
                · rfl
                · rw [hinv o c] at hm
                  rw [hmi_none] at hm
                  exact absurd hm (by simp)
              · intro he
                injection he with he
                exact Or.inl ⟨he.symm, rfl⟩
            · rw [if_neg hc, hinv o c]
              constructor
              · rintro (⟨-, hcmi⟩ | hm)
                · exact absurd hcmi hc
                · exact hm
              · exact fun hm => Or.inr hm
          · intro k s hks
            rw [mapGet_mapEntryInsert oi mi k o2m hs] at hks
            by_cases hk : k = oi
            · rw [if_pos hk] at hks
              injection hks with hks
              subst hks
              exact setInsert_ne_nil _ _
            · rw [if_neg hk] at hks
              exact hne k s hks

/-! ### Distributivity of the projection helper over union -/

theorem get_corresponding_union (M : IdxMap) (S S' : IdxSet) :
    get_corresponding M (setUnion S S') =
      setUnion (get_corresponding M S) (get_corresponding M S') := by
  apply idxSet_ext _ _ (sortedSet_get_corresponding _ _)
    (sortedSet_setUnion _ _ (sortedSet_get_corresponding _ _))
  intro x
  rw [mem_setUnion, mem_get_corresponding, mem_get_corresponding,
    mem_get_corresponding]
  constructor
  · rintro ⟨k, hk, hm⟩
    rcases (mem_setUnion S S' k).1 hk with hk | hk
    · exact Or.inl ⟨k, hk, hm⟩
    · exact Or.inr ⟨k, hk, hm⟩
  · rintro (⟨k, hk, hm⟩ | ⟨k, hk, hm⟩)
    · exact ⟨k, (mem_setUnion S S' k).2 (Or.inl hk), hm⟩
    · exact ⟨k, (mem_setUnion S S' k).2 (Or.inr hk), hm⟩

/-! ### Claim theorems -/

/-- C2: for a ManyToMany built by `from_forward(F)` (`F` a BTreeMap, so its
keys are sorted), for all handles `u`, `v`: `v ∈ forward[u]` if and only if
`u ∈ backward[v]`; the built relation is immutable, so no operation breaks
this mutual-inverse invariant. -/
theorem from_forward_bidirectional_consistency (f : IdxMap)
    (hf : KeysSorted f) (u v : Nat) :
    memMap (ManyToMany.from_forward f).forward u v ↔
      memMap (ManyToMany.from_forward f).backward v u := by
  rw [from_forward_forward f]
  exact (from_forward_backward_memMap f hf u v).symm

/-- Witness for C2 at the concrete forward map `{0 ↦ {1, 2}, 3 ↦ {1}}`. -/
theorem from_forward_bidirectional_consistency_witness :
    KeysSorted [(0, [1, 2]), (3, [1])] ∧
      (memMap (ManyToMany.from_forward [(0, [1, 2]), (3, [1])]).forward 0 1 ↔
        memMap (ManyToMany.from_forward [(0, [1, 2]), (3, [1])]).backward 1 0) :=
  ⟨by decide,
    from_forward_bidirectional_consistency [(0, [1, 2]), (3, [1])] (by decide) 0 1⟩

/-- C4 (counterexample): `from_relations_chain` can produce a ManyToMany whose
`get_from()` contains a handle with an empty association set: with
`r1 = from_forward {0 ↦ {0}}` and `r2 = from_forward {}` (no associations),
the chain's `get_from()` is `{0}` although handle `0` participates in no
association (`forward = {0 ↦ {}}` and projecting `{0}` forward is empty). -/
theorem manyToMany_get_from_counterexample :
    ((ManyToMany.from_relations_chain
        (ManyToMany.from_forward [(0, [0])]).toRelation
        (ManyToMany.from_forward []).toRelation).get_from = [0]) ∧
    ((ManyToMany.from_relations_chain
        (ManyToMany.from_forward [(0, [0])]).toRelation
        (ManyToMany.from_forward []).toRelation).forward = [(0, [])]) ∧
    ((ManyToMany.from_relations_chain
        (ManyToMany.from_forward [(0, [0])]).toRelation
        (ManyToMany.from_forward []).toRelation).get_corresponding_forward [0]
      = []) :=
  ⟨rfl, rfl, rfl⟩

/-- C4 (amended): `ManyToMany::get_from()` returns exactly the From-handles
present as keys of the `forward` map; for chain/sink-composed relations a key
may carry an empty association set, so such a handle still appears. -/
theorem manyToMany_get_from_keys (m : ManyToMany) (x : Nat) :
    x ∈ m.get_from ↔ ∃ s, mapGet m.forward x = some s := by
  rw [ManyToMany.get_from, mem_collectSet, mapGet_isSome_iff]

/-- C7: projection through a ManyToMany relation distributes over index-set
union: `R.get_corresponding_forward(S ∪ S') =
R.get_corresponding_forward(S) ∪ R.get_corresponding_forward(S')`; singleton
sets `{a}`, `{b}` are the instance `S = [a]`, `S' = [b]`. -/
theorem manyToMany_forward_union_distributive (R : ManyToMany)
    (S S' : IdxSet) :
    R.get_corresponding_forward (setUnion S S') =
      setUnion (R.get_corresponding_forward S)
        (R.get_corresponding_forward S') :=
  get_corresponding_union R.forward S S'

/-- C8: `get_corresponding(M, S)` contains `x` exactly when some handle of
`S` is a key of `M` whose mapped set contains `x`; handles of `S` absent from
`M` contribute nothing (no error), so if every handle of `S` is absent the
result is the empty set. -/
theorem get_corresponding_spec (M : IdxMap) (S : IdxSet) :
    (∀ x, x ∈ get_corresponding M S ↔
      ∃ k ∈ S, ∃ s, mapGet M k = some s ∧ x ∈ s) ∧
    ((∀ k ∈ S, mapGet M k = none) → get_corresponding M S = []) := by
  constructor
  · intro x
    exact mem_get_corresponding M S x
  · intro h
    apply idxSet_ext _ _ (sortedSet_get_corresponding _ _)
      (by simp [SortedSet])
    intro x
    rw [mem_get_corresponding]
    constructor
    · rintro ⟨k, hk, s, hs, -⟩
      rw [h k hk] at hs
      exact absurd hs (by simp)
    · intro hx
      exact absurd hx (List.not_mem_nil x)

/-- Witness for C8: both input handles `3`, `4` are absent from the map
`{5 ↦ {1}}`, and the projection is empty. -/
theorem get_corresponding_spec_witness :
    (∀ k ∈ [3, 4], mapGet [(5, [1])] k = none) ∧
      get_corresponding [(5, [1])] [3, 4] = [] :=
  ⟨by decide, (get_corresponding_spec [(5, [1])] [3, 4]).2 (by decide)⟩

/-- C9: `from_forward` is deterministic — two builds from identical forward
maps have identical forward and backward maps — and a BTreeSet's iteration
sequence depends only on its membership: collecting two element lists with
the same members yields the same handle-ordered sequence. -/
theorem from_forward_deterministic :
    (∀ f g : IdxMap, f = g →
      (ManyToMany.from_forward f).forward =
          (ManyToMany.from_forward g).forward ∧
        (ManyToMany.from_forward f).backward =
          (ManyToMany.from_forward g).backward) ∧
    (∀ l₁ l₂ : List Nat, (∀ x, x ∈ l₁ ↔ x ∈ l₂) →
      collectSet l₁ = collectSet l₂) := by
  constructor
  · rintro f g rfl
    exact ⟨rfl, rfl⟩
  · intro l₁ l₂ h
    exact idxSet_ext _ _ (sortedSet_collectSet _) (sortedSet_collectSet _)
      (fun x => by rw [mem_collectSet, mem_collectSet]; exact h x)

/-- Witness for C9: two runs on the map `{0 ↦ {1}}`, and the differently
constructed element lists `[2, 1, 2]` and `[1, 2]` collect identically. -/
theorem from_forward_deterministic_witness :
    ((ManyToMany.from_forward [(0, [1])]).forward =
        (ManyToMany.from_forward [(0, [1])]).forward ∧
      (ManyToMany.from_forward [(0, [1])]).backward =
        (ManyToMany.from_forward [(0, [1])]).backward) ∧
    collectSet [2, 1, 2] = collectSet [1, 2] :=
  ⟨from_forward_deterministic.1 [(0, [1])] [(0, [1])] rfl,
    from_forward_deterministic.2 [2, 1, 2] [1, 2]
      (by intro x; simp; tauto)⟩

/-- C5: `from_relations_chain(r1, r2)` gives every handle `idx` of
`r1.get_from()` (a BTreeSet, hence sorted) the forward entry
`r2.get_corresponding_forward(r1.get_corresponding_forward({idx}))`, and its
backward map is the inverse of that forward map (assembled via
`from_forward`). -/
theorem from_relations_chain_spec (r1 r2 : Relation)
    (h : SortedSet r1.get_from) :
    (∀ idx ∈ r1.get_from,
      mapGet (ManyToMany.from_relations_chain r1 r2).forward idx =
        some (r2.get_corresponding_forward
          (r1.get_corresponding_forward [idx]))) ∧
    (∀ u v,
      memMap (ManyToMany.from_relations_chain r1 r2).backward v u ↔
        memMap (ManyToMany.from_relations_chain r1 r2).forward u v) := by
  constructor
  · intro idx hidx
    rw [ManyToMany.from_relations_chain, from_forward_forward]
    exact mapGet_collectMap_map_self r1.get_from _ h idx hidx
  · intro u v
    exact from_forward_backward_memMap _ (keysSorted_collectMap _) u v

/-- Witness for C5 on `r1 = from_forward {0 ↦ {1}}`,
`r2 = from_forward {1 ↦ {2}}`. -/
theorem from_relations_chain_spec_witness :
    SortedSet (ManyToMany.from_forward [(0, [1])]).toRelation.get_from ∧
    ((∀ idx ∈ (ManyToMany.from_forward [(0, [1])]).toRelation.get_from,
      mapGet (ManyToMany.from_relations_chain
          (ManyToMany.from_forward [(0, [1])]).toRelation
          (ManyToMany.from_forward [(1, [2])]).toRelation).forward idx =
        some ((ManyToMany.from_forward [(1, [2])]).toRelation.get_corresponding_forward
          ((ManyToMany.from_forward [(0, [1])]).toRelation.get_corresponding_forward
            [idx]))) ∧
    (∀ u v,
      memMap (ManyToMany.from_relations_chain
          (ManyToMany.from_forward [(0, [1])]).toRelation
          (ManyToMany.from_forward [(1, [2])]).toRelation).backward v u ↔
        memMap (ManyToMany.from_relations_chain
          (ManyToMany.from_forward [(0, [1])]).toRelation
          (ManyToMany.from_forward [(1, [2])]).toRelation).forward u v)) :=
  ⟨by decide,
    from_relations_chain_spec (ManyToMany.from_forward [(0, [1])]).toRelation
      (ManyToMany.from_forward [(1, [2])]).toRelation (by decide)⟩

/-- C6: `from_relations_sink(r1, r2)` gives every handle `idx` of
`r1.get_from()` (sorted) the forward entry
`r2.get_corresponding_backward(r1.get_corresponding_forward({idx}))`:
the singleton is projected forward through `r1`, then backward through
`r2`. -/
theorem from_relations_sink_spec (r1 r2 : Relation)
    (h : SortedSet r1.get_from) :
    ∀ idx ∈ r1.get_from,
      mapGet (ManyToMany.from_relations_sink r1 r2).forward idx =
        some (r2.get_corresponding_backward
          (r1.get_corresponding_forward [idx])) := by
  intro idx hidx
  rw [ManyToMany.from_relations_sink, from_forward_forward]
  exact mapGet_collectMap_map_self r1.get_from _ h idx hidx

/-- Witness for C6 on `r1 = from_forward {0 ↦ {1}}`,
`r2 = from_forward {7 ↦ {1}}` (both point into the shared domain). -/
theorem from_relations_sink_spec_witness :
    SortedSet (ManyToMany.from_forward [(0, [1])]).toRelation.get_from ∧
    (∀ idx ∈ (ManyToMany.from_forward [(0, [1])]).toRelation.get_from,
      mapGet (ManyToMany.from_relations_sink
          (ManyToMany.from_forward [(0, [1])]).toRelation
          (ManyToMany.from_forward [(7, [1])]).toRelation).forward idx =
        some ((ManyToMany.from_forward [(7, [1])]).toRelation.get_corresponding_backward
          ((ManyToMany.from_forward [(0, [1])]).toRelation.get_corresponding_forward
            [idx]))) :=
  ⟨by decide,
    from_relations_sink_spec (ManyToMany.from_forward [(0, [1])]).toRelation
      (ManyToMany.from_forward [(7, [1])]).toRelation (by decide)⟩

/-- C1: if some element of the `many` collection has a foreign-key id that
does not resolve in the `one` collection, `OneToMany::new` returns an error
(no relation value) whose message chain contains both the relation's
diagnostic name and an offending unresolved id; if every foreign key
resolves, construction succeeds. -/
theorem oneToMany_new_referential_integrity (one : List (String × Nat))
    (many : List (Nat × String)) (rel_name : String) :
    ((∃ p ∈ many, getIdx one p.2 = none) →
      ∃ i msg, (∃ p ∈ many, p.2 = i ∧ getIdx one i = none) ∧
        OneToMany.new one many rel_name = .error msg ∧
        strContains msg rel_name ∧ strContains msg i) ∧
    ((∀ p ∈ many, getIdx one p.2 ≠ none) →
      ∃ r, OneToMany.new one many rel_name = .ok r) := by
  constructor
  · intro h
    rcases new_impl_go_error one many h with ⟨i, hi, hrun⟩
    refine ⟨i,
      "Error indexing " ++
        (rel_name ++ (": " ++ ("id=\"" ++ (i ++ "\" not found")))),
      hi, ?_, ?_, ?_⟩
    · unfold OneToMany.new new_impl
      rw [hrun [] []]
    · refine ⟨"Error indexing ".data,
        (": " ++ ("id=\"" ++ (i ++ "\" not found"))).data, ?_⟩
      simp [String.data_append, List.append_assoc]
    · refine ⟨("Error indexing " ++ (rel_name ++ (": " ++ "id=\""))).data,
        "\" not found".data, ?_⟩
      simp [String.data_append, List.append_assoc]
  · intro h
    rcases new_impl_go_ok one many h [] [] with ⟨r, hr⟩
    refine ⟨r, ?_⟩
    unfold OneToMany.new new_impl
    rw [hr]

/-- Witness for C1: with `one = {A}`, the `many` element `(1, B)` fails to
resolve and `new` errors; with only `(0, A)` it succeeds. -/
theorem oneToMany_new_referential_integrity_witness :
    ((∃ p ∈ [(0, "A"), (1, "B")], getIdx [("A", 0)] p.2 = none) ∧
      ∃ i msg,
        (∃ p ∈ [(0, "A"), (1, "B")], p.2 = i ∧ getIdx [("A", 0)] i = none) ∧
        OneToMany.new [("A", 0)] [(0, "A"), (1, "B")] "sa2sp" = .error msg ∧
        strContains msg "sa2sp" ∧ strContains msg i) ∧
    ((∀ p ∈ [(0, "A")], getIdx [("A", 0)] p.2 ≠ none) ∧
      ∃ r, OneToMany.new [("A", 0)] [(0, "A")] "sa2sp" = .ok r) :=
  ⟨⟨by decide,
      (oneToMany_new_referential_integrity [("A", 0)] [(0, "A"), (1, "B")]
        "sa2sp").1 (by decide)⟩,
    ⟨by decide,
      (oneToMany_new_referential_integrity [("A", 0)] [(0, "A")]
        "sa2sp").2 (by decide)⟩⟩

/-- C3: for a successfully built OneToMany, `get_from()` contains exactly
the `one` handles with at least one child in the `many` collection: `o` is
in `get_from()` iff some `many` element's foreign key resolves to `o`. -/
theorem oneToMany_get_from_exact (one : List (String × Nat))
    (many : List (Nat × String)) (r : OneToMany)
    (h : new_impl one many = .ok r) (o : Nat) :
    o ∈ r.get_from ↔ ∃ p ∈ many, getIdx one p.2 = some o := by
  have hkeys := new_impl_go_keys one many [] [] r (by simp [KeysSorted]) h o
  rw [OneToMany.get_from, mem_collectSet, ← mapGet_isSome_iff, hkeys]
  simp [mapGet]

/-- Witness for C3: `one = {A ↦ 0, B ↦ 1}`, every `many` element references
`A`; `get_from()` of the result is `{0}` (`B`'s handle `1` is excluded). -/
theorem oneToMany_get_from_exact_witness :
    (new_impl [("A", 0), ("B", 1)] [(10, "A"), (11, "A")] =
      .ok (OneToMany.mk [(0, [10, 11])] [(10, 0), (11, 0)])) ∧
    OneToMany.get_from (OneToMany.mk [(0, [10, 11])] [(10, 0), (11, 0)]) = [0] ∧
    (0 ∈ OneToMany.get_from (OneToMany.mk [(0, [10, 11])] [(10, 0), (11, 0)]) ↔
      ∃ p ∈ [(10, "A"), (11, "A")],
        getIdx [("A", 0), ("B", 1)] p.2 = some 0) :=
  ⟨by rfl, by decide,
    oneToMany_get_from_exact [("A", 0), ("B", 1)] [(10, "A"), (11, "A")]
      (OneToMany.mk [(0, [10, 11])] [(10, 0), (11, 0)]) (by rfl) 0⟩

/-- C10: for a successfully built OneToMany (the `many` collection iterates
its distinct handles in increasing order) and any `o` in `get_from()`,
projecting `{o}` forward to its children and the children back yields
exactly `{o}`, because each child in `one_to_many[o]` maps to `o` in
`many_to_one`. -/
theorem oneToMany_roundtrip_singleton (one : List (String × Nat))
    (many : List (Nat × String)) (r : OneToMany)
    (hmany : (many.map Prod.fst).Pairwise (· < ·))
    (h : new_impl one many = .ok r) (o : Nat) (ho : o ∈ r.get_from) :
    r.get_corresponding_backward (r.get_corresponding_forward [o]) = [o] := by
  obtain ⟨hKS, hInv, hNE⟩ :=
    new_impl_go_inv one many [] [] r h (by simp [KeysSorted]) hmany
      (fun p _ => rfl)
      (by intro o' c; simp [memMap, mapGet, lookupN])
      (by intro k s hk; simp [mapGet] at hk)
  rw [OneToMany.get_from, mem_collectSet, ← mapGet_isSome_iff] at ho
  obtain ⟨s, hs⟩ := ho
  apply idxSet_ext _ _ (sortedSet_collectSet _) (by simp [SortedSet])
  intro x
  rw [mem_collectSet, List.mem_filterMap]
  constructor
  · rintro ⟨c, hc, hcx⟩
    have hcx' : lookupN r.many_to_one c = some x := hcx
    rw [OneToMany.get_corresponding_forward, mem_get_corresponding] at hc
    rcases hc with ⟨k, hk, hmm⟩
    rw [List.mem_singleton] at hk
    rw [hk] at hmm
    rw [hInv o c] at hmm
    rw [hmm] at hcx'
    injection hcx' with hcx'
    rw [List.mem_singleton]
    exact hcx'.symm
  · intro hx
    rw [List.mem_singleton] at hx
    subst hx
    have hsne : s ≠ [] := hNE x s hs
    obtain ⟨c, hc⟩ := List.exists_mem_of_ne_nil s hsne
    refine ⟨c, ?_, ?_⟩
    · rw [OneToMany.get_corresponding_forward, mem_get_corresponding]
      exact ⟨x, List.mem_singleton_self x, s, hs, hc⟩
    · show lookupN r.many_to_one c = some x
      rw [← hInv x c]
      exact ⟨s, hs, hc⟩

/-- Witness for C10: the relation built from `one = {A ↦ 0}`,
`many = {(10, A)}` round-trips `{0}` to itself. -/
theorem oneToMany_roundtrip_singleton_witness :
    ((([(10, "A")] : List (Nat × String)).map Prod.fst).Pairwise (· < ·) ∧
      new_impl [("A", 0)] [(10, "A")] =
        .ok (OneToMany.mk [(0, [10])] [(10, 0)]) ∧
      0 ∈ OneToMany.get_from (OneToMany.mk [(0, [10])] [(10, 0)])) ∧
    OneToMany.get_corresponding_backward (OneToMany.mk [(0, [10])] [(10, 0)])
      (OneToMany.get_corresponding_forward (OneToMany.mk [(0, [10])] [(10, 0)])
        [0]) = [0] :=
  ⟨⟨by decide, by rfl, by decide⟩,
    oneToMany_roundtrip_singleton [("A", 0)] [(10, "A")]
      (OneToMany.mk [(0, [10])] [(10, 0)]) (by decide) (by rfl) 0
      (by decide)⟩

end NavitiaRelations
